import Mathlib

/-!
Verification of the spaced-repetition scheduling engine of this repository.

Embedding conventions:
* Python floats (the `ease_factor` column and the literals 0.8, 0.15, 1.3,
  0.1, 2.5, 4.0) are modelled as exact rationals.
* Calendar dates (`due_date`, `today`) are modelled as integer day numbers,
  so `today + timedelta(days=n)` becomes integer addition.
* Timestamps (`last_reviewed_at`, `datetime.utcnow()`) are modelled as an
  integer supplied by the caller.
* The built-in Python `round` (nearest integer, ties to the even neighbour)
  is modelled by `pyRound`.
* The `study_records` table is modelled as an association list from word id
  to `ScheduleState`; SQLAlchemy `filter_by(word_id=...).first()` is lookup
  of the first matching key, and committing a mutated row is an in-place
  update at that key.
* The Flask session dict keys `study_queue`, `study_done`, `study_ratings`,
  `study_total` become the fields of `Session`.  The ratings dict keyed by
  `str(word_id)` is modelled as an association list keyed by the id itself
  (`str` is injective on integers).
-/

/-- The built-in Python `round` on a real value: round to the nearest
integer, with ties (fractional part exactly one half) going to the even
neighbour. -/
def pyRound (q : ℚ) : ℤ :=
  if q - ⌊q⌋ < 1/2 then ⌊q⌋
  else if 1/2 < q - ⌊q⌋ then ⌊q⌋ + 1
  else if ⌊q⌋ % 2 = 0 then ⌊q⌋ else ⌊q⌋ + 1

/-- One row of the `study_records` table (models.py, class StudyRecord),
restricted to the scheduling fields.  Column defaults are
`ease_factor=2.5, interval_days=0, repetitions=0, due_date=today,
last_reviewed_at=NULL`. -/
structure ScheduleState where
  ease_factor : ℚ
  interval_days : ℤ
  repetitions : ℤ
  due_date : ℤ
  last_reviewed_at : Option ℤ
  deriving DecidableEq

/-- A fresh `ScheduleState` as created by `DatabaseStorage.add_word`
(infrastructure.py): `ease_factor=2.5, interval_days=0, repetitions=0,
due_date = creation date d, last_reviewed_at = NULL`. -/
def freshState (d : ℤ) : ScheduleState :=
  ⟨5/2, 0, 0, d, none⟩

/-- The SM-2 style update at the core of `StudyService.evaluate`
(services.py lines 137-174): given the current record, a rating
(0 = again, 1 = hard, 2 = good, 3 = easy), `today` and `now`, compute the
record that is written back.  The tuple `upd` holds
`(ease_factor, interval_days, repetitions)` exactly as assigned by the
`if rating == ...` chain; an unrecognised rating leaves those three fields
unchanged.  Afterwards the code unconditionally sets
`due_date = today + timedelta(days=interval_days)` and
`last_reviewed_at = datetime.utcnow()`. -/
def evaluate (record : ScheduleState) (rating today now : ℤ) : ScheduleState :=
  let ef := record.ease_factor
  let intv := record.interval_days
  let reps := record.repetitions
  let upd : ℚ × ℤ × ℤ :=
    if rating = 0 then
      (ef, 0, 0)
    else if rating = 1 then
      (max (13/10) (ef - 15/100), max 1 (pyRound ((intv : ℚ) * (8/10))),
        max 0 (reps - 1))
    else if rating = 2 then
      (ef, if reps = 0 then 1 else if reps = 1 then 6
            else pyRound ((intv : ℚ) * ef), reps + 1)
    else if rating = 3 then
      (min 4 (ef + 1/10), if reps = 0 then 4 else if reps = 1 then 10
            else pyRound ((intv : ℚ) * ef * (13/10)), reps + 1)
    else
      (ef, intv, reps)
  ⟨upd.1, upd.2.1, upd.2.2, today + upd.2.1, some now⟩

/-- Applying `evaluate` over a list of `(rating, today, now)` triples, one
evaluation per element, in order. -/
def runEvals : ScheduleState → List (ℤ × ℤ × ℤ) → ScheduleState
  | s, [] => s
  | s, (r, t, n) :: rest => runEvals (evaluate s r t n) rest

/-- Invariant maintained by `evaluate` on every record reachable from a
fresh one: ease factor within the SM-2 clamp, non-negative interval and
repetition count, and a positive interval whenever at least one
non-again review has been retained. -/
def StateInv (s : ScheduleState) : Prop :=
  13/10 ≤ s.ease_factor ∧ s.ease_factor ≤ 4 ∧
    0 ≤ s.interval_days ∧ 0 ≤ s.repetitions ∧
    (1 ≤ s.repetitions → 1 ≤ s.interval_days)

/-- The per-session study state stored in the Flask session by the routes
in app.py: keys `study_queue`, `study_done`, `study_ratings`,
`study_total`. -/
structure Session where
  study_queue : List ℤ
  study_done : List ℤ
  study_ratings : List (ℤ × ℤ)
  study_total : ℤ
  deriving DecidableEq

/-- Python dict assignment `ratings[word_id] = rating`: overwrite the
existing entry in place, or append a new one. -/
def setRating : List (ℤ × ℤ) → ℤ → ℤ → List (ℤ × ℤ)
  | [], wid, r => [(wid, r)]
  | (k, v) :: rest, wid, r =>
      if k = wid then (wid, r) :: rest else (k, v) :: setRating rest wid r

/-- `DatabaseStorage.get_study_record` (infrastructure.py):
`StudyRecord.query.filter_by(word_id=word_id).first()`, i.e. the first row
whose key matches, if any. -/
def get_study_record : List (ℤ × ScheduleState) → ℤ → Option ScheduleState
  | [], _ => none
  | (k, r) :: rest, wid =>
      if k = wid then some r else get_study_record rest wid

/-- `DatabaseStorage.update_study_record` (infrastructure.py): commit the
mutated row, i.e. replace the row with the matching key in place. -/
def update_study_record :
    List (ℤ × ScheduleState) → ℤ → ScheduleState → List (ℤ × ScheduleState)
  | [], _, _ => []
  | (k, r) :: rest, wid, newr =>
      if k = wid then (wid, newr) :: rest
      else (k, r) :: update_study_record rest wid newr

/-- `StudyService.evaluate` (services.py lines 128-176) as a transformation
of the `study_records` table: fetch the record for `word_id`; if it is
absent return unchanged (early `return`); otherwise apply the SM-2 update
`evaluate` and persist the result. -/
def service_evaluate (store : List (ℤ × ScheduleState))
    (word_id rating today now : ℤ) : List (ℤ × ScheduleState) :=
  match get_study_record store word_id with
  | none => store
  | some record =>
      update_study_record store word_id (evaluate record rating today now)

/-- The `/study/evaluate` route (app.py lines 446-480) acting on the
session state and the `study_records` table.  `none` models the
`400 Bad Request` response for a rating outside `{0,1,2,3}`, returned
before anything is read or written.  Otherwise: the head of
`study_queue` is popped only when it equals `word_id`; rating 0 appends
`word_id` to the queue tail without touching storage; any other rating
runs `service_evaluate`, appends `word_id` to `study_done` and records
the rating. -/
def study_evaluate (sess : Session) (store : List (ℤ × ScheduleState))
    (word_id rating today now : ℤ) :
    Option (Session × List (ℤ × ScheduleState)) :=
  if rating = 0 ∨ rating = 1 ∨ rating = 2 ∨ rating = 3 then
    let queue1 : List ℤ :=
      match sess.study_queue with
      | [] => []
      | q0 :: rest => if q0 = word_id then rest else q0 :: rest
    if rating = 0 then
      some ({ sess with study_queue := queue1 ++ [word_id] }, store)
    else
      some ({ study_queue := queue1,
              study_done := sess.study_done ++ [word_id],
              study_ratings := setRating sess.study_ratings word_id rating,
              study_total := sess.study_total },
            service_evaluate store word_id rating today now)
  else none

/-- Running a study session: at each step the submitted card id is the
current head of `study_queue` (the id rendered by `/study/card`), rated
with the given `(rating, today, now)`.  Steps at an empty queue or with a
rejected rating leave the state unchanged. -/
def runSteps : Session → List (ℤ × ScheduleState) → List (ℤ × ℤ × ℤ) →
    Session × List (ℤ × ScheduleState)
  | sess, store, [] => (sess, store)
  | sess, store, (r, t, n) :: rest =>
    match sess.study_queue with
    | [] => runSteps sess store rest
    | q0 :: _ =>
      match study_evaluate sess store q0 r t n with
      | none => runSteps sess store rest
      | some (sess2, store2) => runSteps sess2 store2 rest

/-- A session as initialised by the `/study/start` route (app.py lines
378-395): `study_queue` is the list of due card ids, `study_done = []`,
`study_ratings = {}`, `study_total = len(queue)`. -/
def startSession (queue : List ℤ) : Session :=
  ⟨queue, [], [], (queue.length : ℤ)⟩

-- ---------------------------------------------------------------------
-- Branch lemmas unfolding `evaluate` at each concrete rating.
-- ---------------------------------------------------------------------

/-- Rating 0 (again) resets repetitions and interval and, falling through
the common tail of the method, still rewrites `due_date` and
`last_reviewed_at`. -/
theorem evaluate_again (s : ScheduleState) (t n : ℤ) :
    evaluate s 0 t n = ⟨s.ease_factor, 0, 0, t, some n⟩ := by
  simp [evaluate]

/-- Rating 1 (hard). -/
theorem evaluate_hard (s : ScheduleState) (t n : ℤ) :
    evaluate s 1 t n =
      ⟨max (13/10) (s.ease_factor - 15/100),
        max 1 (pyRound ((s.interval_days : ℚ) * (8/10))),
        max 0 (s.repetitions - 1),
        t + max 1 (pyRound ((s.interval_days : ℚ) * (8/10))), some n⟩ := by
  simp [evaluate]

/-- Rating 2 (good). -/
theorem evaluate_good (s : ScheduleState) (t n : ℤ) :
    evaluate s 2 t n =
      ⟨s.ease_factor,
        (if s.repetitions = 0 then 1 else if s.repetitions = 1 then 6
          else pyRound ((s.interval_days : ℚ) * s.ease_factor)),
        s.repetitions + 1,
        t + (if s.repetitions = 0 then 1 else if s.repetitions = 1 then 6
          else pyRound ((s.interval_days : ℚ) * s.ease_factor)),
        some n⟩ := by
  simp [evaluate]

/-- Rating 3 (easy). -/
theorem evaluate_easy (s : ScheduleState) (t n : ℤ) :
    evaluate s 3 t n =
      ⟨min 4 (s.ease_factor + 1/10),
        (if s.repetitions = 0 then 4 else if s.repetitions = 1 then 10
          else pyRound ((s.interval_days : ℚ) * s.ease_factor * (13/10))),
        s.repetitions + 1,
        t + (if s.repetitions = 0 then 4 else if s.repetitions = 1 then 10
          else pyRound ((s.interval_days : ℚ) * s.ease_factor * (13/10))),
        some n⟩ := by
  simp [evaluate]

/-- A rating outside `{0,1,2,3}` falls through every branch of the chain:
ease, interval and repetitions are untouched, but `due_date` and
`last_reviewed_at` are still rewritten. -/
theorem evaluate_other (s : ScheduleState) (r t n : ℤ)
    (h : ¬(r = 0 ∨ r = 1 ∨ r = 2 ∨ r = 3)) :
    evaluate s r t n =
      ⟨s.ease_factor, s.interval_days, s.repetitions,
        t + s.interval_days, some n⟩ := by
  push_neg at h
  obtain ⟨h0, h1, h2, h3⟩ := h
  simp [evaluate, h0, h1, h2, h3]

-- ---------------------------------------------------------------------
-- Facts about `pyRound`.
-- ---------------------------------------------------------------------

/-- `pyRound` never falls below the floor of its argument. -/
theorem floor_le_pyRound (q : ℚ) : ⌊q⌋ ≤ pyRound q := by
  unfold pyRound
  split_ifs <;> omega

/-- Rounding a value at least 1 gives at least 1. -/
theorem one_le_pyRound {q : ℚ} (h : 1 ≤ q) : 1 ≤ pyRound q := by
  have hf : (1 : ℤ) ≤ ⌊q⌋ := by
    exact_mod_cast Int.le_floor.mpr (by exact_mod_cast h)
  exact le_trans hf (floor_le_pyRound q)

/-- On an exact half, `pyRound` picks the even neighbour, exactly as the
built-in Python `round` does. -/
theorem pyRound_half (k : ℤ) :
    pyRound ((k : ℚ) + 1/2) = if k % 2 = 0 then k else k + 1 := by
  have hfl : ⌊(k : ℚ) + 1/2⌋ = k := by
    rw [add_comm, Int.floor_add_int]
    norm_num
  have hfr : (k : ℚ) + 1/2 - ⌊(k : ℚ) + 1/2⌋ = 1/2 := by
    rw [hfl]; ring
  unfold pyRound
  rw [hfr, hfl]
  norm_num

-- ---------------------------------------------------------------------
-- Invariant preservation for the scheduler.
-- ---------------------------------------------------------------------

/-- On a good rating the computed interval is at least one day, provided
the record satisfies the reachability invariant. -/
theorem good_interval_ge_one (s : ScheduleState)
    (h1 : 13/10 ≤ s.ease_factor) (h4 : 0 ≤ s.repetitions)
    (h5 : 1 ≤ s.repetitions → 1 ≤ s.interval_days) :
    1 ≤ (if s.repetitions = 0 then 1 else if s.repetitions = 1 then 6
          else pyRound ((s.interval_days : ℚ) * s.ease_factor)) := by
  by_cases hp0 : s.repetitions = 0
  · simp [hp0]
  · by_cases hp1 : s.repetitions = 1
    · rw [if_neg hp0, if_pos hp1]; norm_num
    · have hiv : 1 ≤ s.interval_days := h5 (by omega)
      have hivq : (1 : ℚ) ≤ (s.interval_days : ℚ) := by exact_mod_cast hiv
      have hprod : (1 : ℚ) ≤ (s.interval_days : ℚ) * s.ease_factor := by
        nlinarith
      rw [if_neg hp0, if_neg hp1]
      exact one_le_pyRound hprod

/-- On an easy rating the computed interval is at least one day, provided
the record satisfies the reachability invariant. -/
theorem easy_interval_ge_one (s : ScheduleState)
    (h1 : 13/10 ≤ s.ease_factor) (h4 : 0 ≤ s.repetitions)
    (h5 : 1 ≤ s.repetitions → 1 ≤ s.interval_days) :
    1 ≤ (if s.repetitions = 0 then 4 else if s.repetitions = 1 then 10
          else pyRound ((s.interval_days : ℚ) * s.ease_factor * (13/10))) := by
  by_cases hp0 : s.repetitions = 0
  · simp [hp0]
  · by_cases hp1 : s.repetitions = 1
    · rw [if_neg hp0, if_pos hp1]; norm_num
    · have hiv : 1 ≤ s.interval_days := h5 (by omega)
      have hivq : (1 : ℚ) ≤ (s.interval_days : ℚ) := by exact_mod_cast hiv
      have hprod : (1 : ℚ) ≤ (s.interval_days : ℚ) * s.ease_factor * (13/10) := by
        nlinarith
      rw [if_neg hp0, if_neg hp1]
      exact one_le_pyRound hprod

/-- One `evaluate` step preserves the reachability invariant, for every
integer rating (recognised or not). -/
theorem stateInv_evaluate (s : ScheduleState) (r t n : ℤ) (h : StateInv s) :
    StateInv (evaluate s r t n) := by
  obtain ⟨h1, h2, h3, h4, h5⟩ := h
  by_cases hr0 : r = 0
  · subst hr0
    rw [evaluate_again]
    exact ⟨h1, h2, le_refl 0, le_refl 0, fun hh => hh⟩
  by_cases hr1 : r = 1
  · subst hr1
    rw [evaluate_hard]
    exact ⟨le_max_left _ _, max_le (by norm_num) (by linarith),
      le_trans zero_le_one (le_max_left _ _), le_max_left _ _,
      fun _ => le_max_left _ _⟩
  by_cases hr2 : r = 2
  · subst hr2
    rw [evaluate_good]
    have hI := good_interval_ge_one s h1 h4 h5
    have hrep : 0 ≤ s.repetitions + 1 := by omega
    exact ⟨h1, h2, le_trans zero_le_one hI, hrep, fun _ => hI⟩
  by_cases hr3 : r = 3
  · subst hr3
    rw [evaluate_easy]
    have hI := easy_interval_ge_one s h1 h4 h5
    have hrep : 0 ≤ s.repetitions + 1 := by omega
    exact ⟨le_min (by norm_num) (by linarith), min_le_left _ _,
      le_trans zero_le_one hI, hrep, fun _ => hI⟩
  rw [evaluate_other s r t n (by tauto)]
  exact ⟨h1, h2, h3, h4, h5⟩

/-- The invariant holds for a fresh record. -/
theorem stateInv_fresh (d : ℤ) : StateInv (freshState d) := by
  refine ⟨?_, ?_, ?_, ?_, ?_⟩ <;> norm_num [freshState]

/-- The invariant holds along every evaluation sequence. -/
theorem stateInv_runEvals (s : ScheduleState) (evs : List (ℤ × ℤ × ℤ))
    (h : StateInv s) : StateInv (runEvals s evs) := by
  induction evs generalizing s with
  | nil => exact h
  | cons e rest ih =>
      obtain ⟨r, t, n⟩ := e
      exact ih _ (stateInv_evaluate s r t n h)

/-- A hard, good or easy evaluation of a record satisfying the invariant
yields an interval of at least one day. -/
theorem evaluate_interval_ge_one (s : ScheduleState) (r t n : ℤ)
    (h : StateInv s) (hr : r = 1 ∨ r = 2 ∨ r = 3) :
    1 ≤ (evaluate s r t n).interval_days := by
  obtain ⟨h1, h2, h3, h4, h5⟩ := h
  rcases hr with hr | hr | hr <;> subst hr
  · rw [evaluate_hard]
    exact le_max_left _ _
  · rw [evaluate_good]
    exact good_interval_ge_one s h1 h4 h5
  · rw [evaluate_easy]
    exact easy_interval_ge_one s h1 h4 h5

-- ---------------------------------------------------------------------
-- Claim theorems: scheduler.
-- ---------------------------------------------------------------------

/-- C1: for every `ScheduleState` reachable from the fresh state
(`ease_factor=2.5, interval_days=0, repetitions=0`) by any finite sequence
of hard, good and easy evaluations, `1.3 ≤ ease_factor ≤ 4.0`. -/
theorem claim_C1_ease_factor_bounds (d : ℤ) (evs : List (ℤ × ℤ × ℤ))
    (h : ∀ e ∈ evs, e.1 = 1 ∨ e.1 = 2 ∨ e.1 = 3) :
    13/10 ≤ (runEvals (freshState d) evs).ease_factor ∧
      (runEvals (freshState d) evs).ease_factor ≤ 4 := by
  have hinv := stateInv_runEvals (freshState d) evs (stateInv_fresh d)
  exact ⟨hinv.1, hinv.2.1⟩

/-- Witness for C1 at the singleton good evaluation. -/
theorem claim_C1_witness :
    13/10 ≤ (runEvals (freshState 0) [(2, 0, 0)]).ease_factor ∧
      (runEvals (freshState 0) [(2, 0, 0)]).ease_factor ≤ 4 :=
  claim_C1_ease_factor_bounds 0 [(2, 0, 0)] (by decide)

/-- C3: every state reachable from the fresh state by any finite sequence
of evaluations has `interval_days ≥ 0`, and a further hard, good or easy
evaluation of a reachable state yields `interval_days ≥ 1`. -/
theorem claim_C3_interval_bounds (d : ℤ) (evs : List (ℤ × ℤ × ℤ)) :
    0 ≤ (runEvals (freshState d) evs).interval_days ∧
      ∀ r t n : ℤ, (r = 1 ∨ r = 2 ∨ r = 3) →
        1 ≤ (evaluate (runEvals (freshState d) evs) r t n).interval_days := by
  have hinv := stateInv_runEvals (freshState d) evs (stateInv_fresh d)
  exact ⟨hinv.2.2.1,
    fun r t n hr => evaluate_interval_ge_one _ r t n hinv hr⟩

/-- Witness for C3 after one again evaluation, followed by a good one. -/
theorem claim_C3_witness :
    0 ≤ (runEvals (freshState 0) [(0, 0, 0)]).interval_days ∧
      1 ≤ (evaluate (runEvals (freshState 0) [(0, 0, 0)]) 2 1 1).interval_days := by
  have h := claim_C3_interval_bounds 0 [(0, 0, 0)]
  exact ⟨h.1, h.2 2 1 1 (by decide)⟩

/-- C4: a fresh state rated good yields `interval_days=1, due=today+1`;
rated easy yields `interval_days=4, due=today+4, ease=2.6`; a state with
`repetitions=1` rated good yields `interval_days=6`, rated easy yields
`interval_days=10`. -/
theorem claim_C4_first_evaluations (d t n : ℤ) :
    evaluate (freshState d) 2 t n = ⟨5/2, 1, 1, t + 1, some n⟩ ∧
    evaluate (freshState d) 3 t n = ⟨13/5, 4, 1, t + 4, some n⟩ ∧
    ∀ s : ScheduleState, s.repetitions = 1 →
      (evaluate s 2 t n).interval_days = 6 ∧
      (evaluate s 3 t n).interval_days = 10 := by
  refine ⟨?_, ?_, ?_⟩
  · rw [evaluate_good]
    norm_num [freshState]
  · rw [evaluate_easy]
    norm_num [freshState, min_def]
  · intro s hs
    constructor
    · rw [evaluate_good]
      simp [hs]
    · rw [evaluate_easy]
      simp [hs]

/-- Witness for C4 at `today = 0, now = 0` and a concrete
`repetitions = 1` state. -/
theorem claim_C4_witness :
    evaluate (freshState 0) 2 0 0 = ⟨5/2, 1, 1, 1, some 0⟩ ∧
    (evaluate ⟨5/2, 6, 1, 7, none⟩ 2 0 0).interval_days = 6 ∧
    (evaluate ⟨5/2, 6, 1, 7, none⟩ 3 0 0).interval_days = 10 := by
  have h := claim_C4_first_evaluations 0 0 0
  have h2 := h.2.2 ⟨5/2, 6, 1, 7, none⟩ rfl
  exact ⟨h.1, h2.1, h2.2⟩

/-- C2 is false on the code: the products are rounded by the built-in
Python `round`, which sends 12.5 to 12 (ties to even), not to the integer
of larger absolute value 13.  The state below has `repetitions = 2`,
`interval_days = 5` and `ease_factor = 2.5`, so the good-rating product
is exactly 12.5, yet the computed interval is 12. -/
theorem claim_C2_counterexample :
    (((⟨5/2, 5, 2, 0, none⟩ : ScheduleState).interval_days : ℚ) *
        (⟨5/2, 5, 2, 0, none⟩ : ScheduleState).ease_factor = 12 + 1/2) ∧
    (evaluate ⟨5/2, 5, 2, 0, none⟩ 2 0 0).interval_days = 12 ∧
    (evaluate ⟨5/2, 5, 2, 0, none⟩ 2 0 0).interval_days ≠ 13 := by
  refine ⟨by norm_num, ?_, ?_⟩ <;>
    · rw [evaluate_good]
      norm_num [pyRound]

/-- C2 (amended): the interval computations round to a whole number of
days with the built-in Python `round`, i.e. round half to even: whenever
the good-rating product `interval*ease`, or the easy-rating product
`interval*ease*1.3`, has fractional part exactly one half, the computed
`interval_days` is the even neighbour, not the one of larger absolute
value. -/
theorem claim_C2_round_half_to_even (s : ScheduleState) (t n k : ℤ)
    (h2 : 2 ≤ s.repetitions) :
    (((s.interval_days : ℚ) * s.ease_factor = (k : ℚ) + 1/2) →
        (evaluate s 2 t n).interval_days =
          if k % 2 = 0 then k else k + 1) ∧
    (((s.interval_days : ℚ) * s.ease_factor * (13/10) = (k : ℚ) + 1/2) →
        (evaluate s 3 t n).interval_days =
          if k % 2 = 0 then k else k + 1) := by
  have hp0 : ¬(s.repetitions = 0) := by omega
  have hp1 : ¬(s.repetitions = 1) := by omega
  constructor
  · intro hk
    rw [evaluate_good]
    show (if s.repetitions = 0 then 1 else if s.repetitions = 1 then 6
      else pyRound ((s.interval_days : ℚ) * s.ease_factor)) = _
    rw [if_neg hp0, if_neg hp1, hk]
    exact pyRound_half k
  · intro hk
    rw [evaluate_easy]
    show (if s.repetitions = 0 then 4 else if s.repetitions = 1 then 10
      else pyRound ((s.interval_days : ℚ) * s.ease_factor * (13/10))) = _
    rw [if_neg hp0, if_neg hp1, hk]
    exact pyRound_half k

/-- Witness for C2 (amended): `5 * 2.5 = 12.5` rounds to 12 on a good
rating and `2 * 2.5 * 1.3 = 6.5` rounds to 6 on an easy rating. -/
theorem claim_C2_witness :
    (evaluate ⟨5/2, 5, 2, 0, none⟩ 2 0 0).interval_days = 12 ∧
    (evaluate ⟨5/2, 2, 2, 0, none⟩ 3 0 0).interval_days = 6 := by
  have hg := (claim_C2_round_half_to_even ⟨5/2, 5, 2, 0, none⟩ 0 0 12
    (by norm_num)).1 (by norm_num)
  have he := (claim_C2_round_half_to_even ⟨5/2, 2, 2, 0, none⟩ 0 0 6
    (by norm_num)).2 (by norm_num)
  rw [hg, he]
  norm_num

-- ---------------------------------------------------------------------
-- Claim theorems: session controller.
-- ---------------------------------------------------------------------

/-- C5: when the head of a non-empty queue equals the submitted id, an
again rating pops the id from the head and appends it to the tail, keeps
the queue length, performs no storage change and leaves `study_done`,
`study_ratings` and `study_total` untouched. -/
theorem claim_C5_again_requeues (sess : Session)
    (store : List (ℤ × ScheduleState)) (q0 : ℤ) (qt : List ℤ) (t n : ℤ)
    (hq : sess.study_queue = q0 :: qt) :
    study_evaluate sess store q0 0 t n =
      some (⟨qt ++ [q0], sess.study_done, sess.study_ratings,
             sess.study_total⟩, store) ∧
    (qt ++ [q0]).length = sess.study_queue.length := by
  constructor
  · simp [study_evaluate, hq]
  · simp [hq]

/-- Witness for C5 at the concrete queue `[1, 2]`. -/
theorem claim_C5_witness :
    study_evaluate ⟨[1, 2], [], [], 2⟩ [] 1 0 0 0 =
      some (⟨[2, 1], [], [], 2⟩, []) ∧
    (([2] : List ℤ) ++ [1]).length = ([1, 2] : List ℤ).length := by
  have h := claim_C5_again_requeues ⟨[1, 2], [], [], 2⟩ [] 1 [2] 0 0 rfl
  simpa using h

/-- C6 is false on the code at the scheduler level: the again branch of
`StudyService.evaluate` falls through to the common tail, which rewrites
`due_date` to `today` and `last_reviewed_at` to `now`.  The state below
has `due_date = 10` and no `last_reviewed_at`; rating 0 at `today = 0,
now = 7` changes both fields. -/
theorem claim_C6_counterexample :
    (evaluate ⟨5/2, 5, 2, 10, none⟩ 0 0 7).due_date ≠
      (⟨5/2, 5, 2, 10, none⟩ : ScheduleState).due_date ∧
    (evaluate ⟨5/2, 5, 2, 10, none⟩ 0 0 7).last_reviewed_at ≠
      (⟨5/2, 5, 2, 10, none⟩ : ScheduleState).last_reviewed_at := by
  rw [evaluate_again]
  exact ⟨by decide, by decide⟩

/-- C6 (amended): an again evaluation submitted through the route never
mutates stored schedule state, because the controller requeues the card
without calling the scheduler; but the scheduler function itself, if
invoked with rating 0, resets repetitions and interval to 0, keeps the
ease factor, and rewrites `due_date = today` and
`last_reviewed_at = now`. -/
theorem claim_C6_again_scheduler (sess : Session)
    (store : List (ℤ × ScheduleState)) (q0 : ℤ) (qt : List ℤ) (t n : ℤ)
    (hq : sess.study_queue = q0 :: qt) :
    study_evaluate sess store q0 0 t n =
      some (⟨qt ++ [q0], sess.study_done, sess.study_ratings,
             sess.study_total⟩, store) ∧
    ∀ s : ScheduleState, evaluate s 0 t n =
      ⟨s.ease_factor, 0, 0, t, some n⟩ := by
  constructor
  · simp [study_evaluate, hq]
  · intro s
    exact evaluate_again s t n

/-- Witness for C6 (amended) at a singleton queue and a concrete state. -/
theorem claim_C6_witness :
    study_evaluate ⟨[1], [], [], 1⟩ [] 1 0 3 4 =
      some (⟨[1], [], [], 1⟩, []) ∧
    evaluate ⟨5/2, 5, 2, 10, some 1⟩ 0 3 4 = ⟨5/2, 0, 0, 3, some 4⟩ := by
  have h := claim_C6_again_scheduler ⟨[1], [], [], 1⟩ [] 1 [] 3 4 rfl
  exact ⟨by simpa using h.1, h.2 _⟩

/-- C7 is false on the code: when the submitted id has no stored record,
`StudyService.evaluate` is indeed a no-op on storage, but the route still
appends the id to `study_done` and records its rating.  Below the store
is empty, yet rating the single queued card 5 as good moves it to
`study_done`. -/
theorem claim_C7_counterexample :
    study_evaluate ⟨[5], [], [], 1⟩ [] 5 2 0 0 =
      some (⟨[], [5], [(5, 2)], 1⟩, []) ∧
    ([5] : List ℤ) ≠ [] := by
  constructor
  · simp [study_evaluate, service_evaluate, get_study_record, setRating]
  · decide

/-- C7 (amended): when the submitted id equals the queue head but has no
stored `ScheduleState`, the evaluation is a no-op on schedule storage,
while the session still pops the head, appends the id to `study_done` and
records its rating. -/
theorem claim_C7_missing_record (sess : Session)
    (store : List (ℤ × ScheduleState)) (q0 : ℤ) (qt : List ℤ) (r t n : ℤ)
    (hq : sess.study_queue = q0 :: qt) (hr : r = 1 ∨ r = 2 ∨ r = 3)
    (habs : get_study_record store q0 = none) :
    study_evaluate sess store q0 r t n =
      some (⟨qt, sess.study_done ++ [q0],
             setRating sess.study_ratings q0 r, sess.study_total⟩, store) := by
  rcases hr with h | h | h <;> subst h <;>
    simp [study_evaluate, hq, service_evaluate, habs]

/-- Witness for C7 (amended): a store holding only card 9, evaluated at
card 7. -/
theorem claim_C7_witness :
    study_evaluate ⟨[7], [2], [(2, 3)], 2⟩ [(9, freshState 0)] 7 2 0 0 =
      some (⟨[], [2, 7], [(2, 3), (7, 2)], 2⟩, [(9, freshState 0)]) := by
  have h := claim_C7_missing_record ⟨[7], [2], [(2, 3)], 2⟩
    [(9, freshState 0)] 7 [] 2 0 0 rfl (by tauto) (by simp [get_study_record])
  simpa [setRating] using h

/-- C8 is false on the code: a submitted id different from the queue head
is not ignored.  With queue `[1]`, submitting id 2 with a good rating
leaves the queue alone but still calls the scheduler on card 2, persists
the new state, appends 2 to `study_done` and records its rating. -/
theorem claim_C8_counterexample :
    study_evaluate ⟨[1], [], [], 1⟩ [(2, freshState 0)] 2 2 5 6 =
      some (⟨[1], [2], [(2, 2)], 1⟩,
            [(2, evaluate (freshState 0) 2 5 6)]) ∧
    (evaluate (freshState 0) 2 5 6).interval_days ≠
      (freshState 0).interval_days ∧
    ([2] : List ℤ) ≠ [] := by
  refine ⟨?_, ?_, by decide⟩
  · simp [study_evaluate, service_evaluate, get_study_record,
      update_study_record, setRating]
  · rw [evaluate_good]
    simp [freshState]

/-- C8 (amended): on a mismatched id (queue empty or head different from
the submitted id) the head is not popped, but the rating is still
processed: an again rating appends the mismatched id to the queue tail,
and a hard, good or easy rating calls the scheduler on the mismatched id,
persists the result, appends the id to `study_done` and records the
rating. -/
theorem claim_C8_mismatch (sess : Session)
    (store : List (ℤ × ScheduleState)) (wid r t n : ℤ)
    (hmis : ∀ q0 qt, sess.study_queue = q0 :: qt → q0 ≠ wid) :
    (study_evaluate sess store wid 0 t n =
       some (⟨sess.study_queue ++ [wid], sess.study_done,
              sess.study_ratings, sess.study_total⟩, store)) ∧
    ((r = 1 ∨ r = 2 ∨ r = 3) →
      study_evaluate sess store wid r t n =
        some (⟨sess.study_queue, sess.study_done ++ [wid],
               setRating sess.study_ratings wid r, sess.study_total⟩,
              service_evaluate store wid r t n)) := by
  cases hq : sess.study_queue with
  | nil =>
      constructor
      · simp [study_evaluate, hq]
      · intro hr
        rcases hr with h | h | h <;> subst h <;> simp [study_evaluate, hq]
  | cons q0 rest =>
      have hne : q0 ≠ wid := hmis q0 rest hq
      constructor
      · simp [study_evaluate, hq, hne]
      · intro hr
        rcases hr with h | h | h <;> subst h <;>
          simp [study_evaluate, hq, hne]

/-- Witness for C8 (amended): queue `[1]`, submitted id 2. -/
theorem claim_C8_witness :
    study_evaluate ⟨[1], [], [], 1⟩ [] 2 0 0 0 =
      some (⟨[1, 2], [], [], 1⟩, []) ∧
    study_evaluate ⟨[1], [], [], 1⟩ [] 2 2 0 0 =
      some (⟨[1], [2], [(2, 2)], 1⟩, []) := by
  have h := claim_C8_mismatch ⟨[1], [], [], 1⟩ [] 2 2 0 0
    (fun q0 qt hh => by injection hh with h1 h2; omega)
  refine ⟨by simpa using h.1, ?_⟩
  have h2 := h.2 (by tauto)
  simpa [setRating, service_evaluate, get_study_record] using h2

/-- C9: a rating outside `{0,1,2,3}` is rejected by the route before the
session or the storage is read or written: the result is the
`400 Bad Request` response and no state change. -/
theorem claim_C9_invalid_rating (sess : Session)
    (store : List (ℤ × ScheduleState)) (wid r t n : ℤ)
    (hr : ¬(r = 0 ∨ r = 1 ∨ r = 2 ∨ r = 3)) :
    study_evaluate sess store wid r t n = none := by
  simp [study_evaluate, hr]

/-- Witness for C9 at rating 4. -/
theorem claim_C9_witness :
    study_evaluate ⟨[1], [], [], 1⟩ [] 1 4 0 0 = none :=
  claim_C9_invalid_rating ⟨[1], [], [], 1⟩ [] 1 4 0 0 (by decide)

-- ---------------------------------------------------------------------
-- Claim C10: conservation of card ids across a session.
-- ---------------------------------------------------------------------

/-- The coercion of a list append to a multiset is the sum. -/
theorem coe_append_multiset (l1 l2 : List ℤ) :
    ((l1 ++ l2 : List ℤ) : Multiset ℤ) =
      (l1 : Multiset ℤ) + (l2 : Multiset ℤ) :=
  (Multiset.coe_add l1 l2).symm

/-- One evaluate step whose submitted id is the queue head preserves the
multiset of ids in `study_queue` plus `study_done`. -/
theorem step_multiset_preserved (sess sess2 : Session)
    (store store2 : List (ℤ × ScheduleState)) (q0 : ℤ) (qt : List ℤ)
    (r t n : ℤ) (hq : sess.study_queue = q0 :: qt)
    (h : study_evaluate sess store q0 r t n = some (sess2, store2)) :
    (sess2.study_queue : Multiset ℤ) + (sess2.study_done : Multiset ℤ) =
      (sess.study_queue : Multiset ℤ) + (sess.study_done : Multiset ℤ) := by
  by_cases hv : r = 0 ∨ r = 1 ∨ r = 2 ∨ r = 3
  · by_cases hr0 : r = 0
    · subst hr0
      rw [study_evaluate] at h
      simp only [hq] at h
      simp at h
      obtain ⟨h1, h2⟩ := h
      rw [← h1, hq]
      calc ((qt ++ [q0] : List ℤ) : Multiset ℤ) + ↑sess.study_done
          = ↑((qt ++ [q0]) ++ sess.study_done) :=
            (coe_append_multiset _ _).symm
        _ = ↑((q0 :: qt) ++ sess.study_done) :=
            Multiset.coe_eq_coe.mpr
              (List.Perm.append_right _ List.perm_append_comm)
        _ = ↑(q0 :: qt) + ↑sess.study_done := coe_append_multiset _ _
    · rw [study_evaluate] at h
      simp only [hq] at h
      simp [hr0] at h
      obtain ⟨hcond, hsess, hstore⟩ := h
      rw [← hsess, hq]
      have hperm :
          (qt ++ (sess.study_done ++ [q0])).Perm
            ((q0 :: qt) ++ sess.study_done) := by
        rw [← List.append_assoc]
        exact List.perm_append_comm
      calc (qt : Multiset ℤ) + ↑(sess.study_done ++ [q0])
          = ↑(qt ++ (sess.study_done ++ [q0])) :=
            (coe_append_multiset _ _).symm
        _ = ↑((q0 :: qt) ++ sess.study_done) := Multiset.coe_eq_coe.mpr hperm
        _ = ↑(q0 :: qt) + ↑sess.study_done := coe_append_multiset _ _
  · simp [study_evaluate, hv] at h

/-- Along any run of head-submitted evaluate steps, the multiset of ids in
`study_queue` plus `study_done` never changes. -/
theorem runSteps_multiset_preserved (steps : List (ℤ × ℤ × ℤ))
    (sess : Session) (store : List (ℤ × ScheduleState)) :
    ((runSteps sess store steps).1.study_queue : Multiset ℤ) +
      ((runSteps sess store steps).1.study_done : Multiset ℤ) =
      (sess.study_queue : Multiset ℤ) +
        (sess.study_done : Multiset ℤ) := by
  induction steps generalizing sess store with
  | nil => rfl
  | cons st rest ih =>
      obtain ⟨r, t, n⟩ := st
      cases hq : sess.study_queue with
      | nil =>
          have e := ih sess store
          rw [runSteps]
          simp only [hq]
          simpa [hq] using e
      | cons q0 qt =>
          cases hres : study_evaluate sess store q0 r t n with
          | none =>
              have e := ih sess store
              rw [runSteps]
              simp only [hq, hres]
              simpa [hq] using e
          | some pr =>
              obtain ⟨sess2, store2⟩ := pr
              have hstep := step_multiset_preserved sess sess2 store store2
                q0 qt r t n hq hres
              have e := ih sess2 store2
              rw [runSteps]
              simp only [hq, hres]
              rw [e, hstep, hq]

/-- C10: for every session started from a queue of distinct card ids,
after any sequence of evaluate steps in which each submitted id equals the
head of the pending queue, the multiset of ids in `study_queue` together
with `study_done` equals the initial queue: no id is duplicated, lost or
introduced. -/
theorem claim_C10_conservation (q : List ℤ)
    (store : List (ℤ × ScheduleState)) (steps : List (ℤ × ℤ × ℤ))
    (hnd : q.Nodup) :
    ((runSteps (startSession q) store steps).1.study_queue : Multiset ℤ) +
      ((runSteps (startSession q) store steps).1.study_done : Multiset ℤ) =
      (q : Multiset ℤ) := by
  rw [runSteps_multiset_preserved steps (startSession q) store]
  simp [startSession]

/-- Witness for C10: queue `[1, 2]`, one again step and one good step. -/
theorem claim_C10_witness :
    ((runSteps (startSession [1, 2]) [] [(0, 0, 0), (2, 0, 0)]).1.study_queue :
        Multiset ℤ) +
      ((runSteps (startSession [1, 2]) [] [(0, 0, 0), (2, 0, 0)]).1.study_done :
        Multiset ℤ) =
      (([1, 2] : List ℤ) : Multiset ℤ) :=
  claim_C10_conservation [1, 2] [] [(0, 0, 0), (2, 0, 0)] (by decide)
